import Mathlib

/-!
Verification of the EchoChat frontend audio pipeline and protocol handler.

The development shallow-embeds the audio utilities (`audioUtils.ts`), the
web-worker audio path, the inline `ScriptProcessorNode` callback and the
WebSocket message handler of `App.tsx` (the version carrying the structured
JSON protocol), and proves the spec's testable properties about them.
Float samples are modelled as rationals; JavaScript strings as Lean strings
restricted to the ASCII operations the source uses.
-/

namespace EchoChat

/-- Lifecycle of a WebSocket handle, mirroring the `readyState` constants
`WebSocket.CONNECTING/OPEN/CLOSING/CLOSED`. -/
inductive WsReadyState where
  | CONNECTING
  | OPEN
  | CLOSING
  | CLOSED
deriving DecidableEq

/-- Connection badge state, mirroring `enum ConnectionStatus` in `types.ts`. -/
inductive ConnectionStatus where
  | DISCONNECTED
  | CONNECTING
  | CONNECTED
  | ERROR
deriving DecidableEq

/-- Activity state, mirroring `type ProcessStatus = 'idle' | 'transcribing'
| 'processing'` in `types.ts`. -/
inductive ProcessStatus where
  | idle
  | transcribing
  | processing
deriving DecidableEq

/-- Transcript speaker, mirroring `sender: 'user' | 'system'` in `types.ts`. -/
inductive Sender where
  | user
  | system
deriving DecidableEq

/-- Configuration record, mirroring `interface AppConfig` in `types.ts`. -/
structure AppConfig where
  wsUrl : String
  sampleRate : ℕ
  frameDurationMs : ℕ
  pauseThreshold : ℕ
  silenceThreshold : ℚ
deriving DecidableEq

/-- The fixed target rate, `const TARGET_SAMPLE_RATE = 16000` in `App.tsx`
and the worker. -/
def TARGET_SAMPLE_RATE : ℕ := 16000

/-! ## PCM encoder (`audioUtils.floatTo16BitPCM`) -/

/-- Scaled value computed by `floatTo16BitPCM` for one sample before the
16-bit store: `s = Math.max(-1, Math.min(1, input[i]))`, then
`s < 0 ? s * 0x8000 : s * 0x7FFF`. -/
def pcm16Scaled (x : ℚ) : ℚ :=
  let s := max (-1) (min 1 x)
  if s < 0 then s * 32768 else s * 32767

/-- Truncation toward zero, the integer conversion `DataView.setInt16`
applies to its numeric argument. -/
def truncToInt (x : ℚ) : ℤ :=
  if x < 0 then ⌈x⌉ else ⌊x⌋

/-- The two bytes `setInt16(offset, v, true)` stores: the value is wrapped
to 16 bits (two's complement) and written little-endian. -/
def int16LEBytes (v : ℤ) : List ℕ :=
  let u := (v % 65536).toNat
  [u % 256, u / 256]

/-- Wire bytes emitted for one sample by `floatTo16BitPCM`. -/
def pcm16Bytes (x : ℚ) : List ℕ :=
  int16LEBytes (truncToInt (pcm16Scaled x))

/-- The encoder loop of `floatTo16BitPCM`: each sample contributes two bytes
at offset `i * 2`, in input order. -/
def floatTo16BitPCM : List ℚ → List ℕ
  | [] => []
  | x :: xs => pcm16Bytes x ++ floatTo16BitPCM xs

/-- Standard PCM16 little-endian decode of a two-byte pair, used as the
specification-side reading of the emitted bytes. -/
def decodePCM16 (b0 b1 : ℕ) : ℤ :=
  let u := b0 + 256 * b1
  if u < 32768 then (u : ℤ) else (u : ℤ) - 65536

/-! ## RMS energy (`audioUtils.calculateRMS`) -/

/-- Square of `calculateRMS`: the source computes `sqrt(sum / length)`; the
square root does not exist on ℚ, so the model carries the radicand and the
VAD comparison below compares squares, which is equivalent because `sqrt` is
order-preserving on nonnegative values. -/
def calculateRMSSq (input : List ℚ) : ℚ :=
  ((input.map fun x => x * x).sum) / input.length

/-- The comparison `calculateRMS(inputData) > config.silenceThreshold` from
the audio callback. On empty input the source's `sqrt(0/0)` is NaN and every
comparison with NaN is false; a negative threshold is below any real RMS. -/
def speechFlag (threshold : ℚ) (input : List ℚ) : Bool :=
  if input.length = 0 then false
  else if threshold < 0 then true
  else decide (threshold ^ 2 < calculateRMSSq input)

/-! ## Resampler (`audioUtils.downsampleBuffer`) -/

/-- Sum of the window loop body of `downsampleBuffer`: the samples at indices
`s, s+1, ..., s+n-1` (out-of-range reads cannot occur in the source because
the loop also bounds `j < buffer.length`; `getD _ 0` is the total reading). -/
def windowSum (buffer : List ℚ) (s n : ℕ) : ℚ :=
  ((List.range' s n).map fun j => buffer.getD j 0).sum

/-- Inner loop of `downsampleBuffer` for one output index: iterate `j` from
`startOffset` while `j < endOffset && j < buffer.length`, accumulate `sum`
and `count`, return `count > 0 ? sum / count : 0`. -/
def windowAvg (buffer : List ℚ) (s e : ℕ) : ℚ :=
  let stop := min e buffer.length
  let count := stop - s
  if 0 < count then windowSum buffer s count / count else 0

/-- The `downsampleBuffer` function of `audioUtils.ts`: identity when rates
agree, an error for upsampling, otherwise block averaging with
`ratio = inputSampleRate / outputSampleRate`,
`newLength = Math.round(buffer.length / ratio)` and window
`[floor(i * ratio), floor((i + 1) * ratio))` for each output index `i`. -/
def downsampleBuffer (buffer : List ℚ) (inputSampleRate outputSampleRate : ℕ) :
    Except String (List ℚ) :=
  if outputSampleRate = inputSampleRate then .ok buffer
  else if inputSampleRate < outputSampleRate then
    .error "Upsampling is not supported"
  else
    let ratio : ℚ := (inputSampleRate : ℚ) / (outputSampleRate : ℚ)
    let newLength : ℕ := (round ((buffer.length : ℚ) / ratio)).toNat
    .ok ((List.range newLength).map fun i : ℕ =>
      windowAvg buffer (⌊(i : ℚ) * ratio⌋.toNat) (⌊((i : ℚ) + 1) * ratio⌋.toNat))

/-- Modelled from the spec's words (§4.1), as the specification side of the
refinement claim C3: output index `i` "averages all input samples whose index
falls in `[floor(i*ratio), floor((i+1)*ratio))`; an empty window yields 0.0".
Compared below with the loop implementation `windowAvg`. -/
def windowMeanSpec (buffer : List ℚ) (s e : ℕ) : ℚ :=
  let idx := (Finset.range buffer.length).filter (fun j => s ≤ j ∧ j < e)
  if idx.card ≠ 0 then (∑ j ∈ idx, buffer.getD j 0) / idx.card else 0

/-! ## Framer (`audioQueueRef` loop in `App.tsx`, `audioBufferQueue` loop in
the worker) -/

/-- One run of the frame-slicing loop: `while (queue.length >= F) { frame =
queue.slice(0, F); queue = queue.slice(F); ... }`. The recursion is indexed
by fuel; fuel `q.length` suffices because every iteration removes `F ≥ 1`
samples (with `F = 0` the source loop would not terminate, and no execution
context constructs such a frame size). -/
def drainLoop (F : ℕ) : ℕ → List ℚ → List (List ℚ) × List ℚ
  | 0, q => ([], q)
  | fuel + 1, q =>
    if 0 < F ∧ F ≤ q.length then
      let r := drainLoop F fuel (q.drop F)
      (q.take F :: r.1, r.2)
    else ([], q)

/-- The frame-slicing loop applied to a queue: returns the frames removed
from the front, oldest first, and the remaining queue. -/
def framerDrain (F : ℕ) (q : List ℚ) : List (List ℚ) × List ℚ :=
  drainLoop F q.length q

/-- All frames ever taken across a sequence of pushes: each audio callback
appends its (resampled) chunk to the queue and drains every available frame
before returning, exactly as both execution contexts do. -/
def framerRun (F : ℕ) (chunks : List (List ℚ)) : List (List ℚ) × List ℚ :=
  chunks.foldl (fun acc c =>
    let r := framerDrain F (acc.2 ++ c)
    (acc.1 ++ r.1, r.2)) ([], [])

/-! ## Frame sample count -/

/-- The worker's frame size (worker line `const VAD_SAMPLES_PER_FRAME =
Math.floor(TARGET_SAMPLE_RATE * config.frameDurationMs / 1000)`): floored
division. -/
def vadSamplesPerFrameWorker (frameDurationMs : ℕ) : ℕ :=
  TARGET_SAMPLE_RATE * frameDurationMs / 1000

/-- The inline processor's frame size (`App.tsx` line `const
VAD_SAMPLES_PER_FRAME = TARGET_SAMPLE_RATE * config.frameDurationMs / 1000`):
exact division with no flooring, modelled in ℚ. -/
def vadSamplesPerFrameApp (frameDurationMs : ℕ) : ℚ :=
  (TARGET_SAMPLE_RATE : ℚ) * (frameDurationMs : ℚ) / 1000

/-! ## Audio callbacks -/

/-- The `processor.onaudioprocess` callback of `App.tsx` (structured-protocol
version). Everything is guarded by `wsRef.current && wsRef.current.readyState
=== WebSocket.OPEN`; inside, the VAD flag is computed, the chunk is
downsampled when the context rate differs from 16000 (a resampler error
would escape the handler after the flag update and before any queue
mutation), the queue is extended and every available frame is encoded and
sent. The result is the new queue, the new VAD flag and the byte frames
handed to `ws.send`. The frame size is the worker's floored expression,
which for a natural `frameDurationMs` coincides with the exact division the
source writes here (proved below). -/
def onaudioprocess (cfg : AppConfig) (inputSampleRate : ℕ)
    (ws : Option WsReadyState) (audioQueue : List ℚ) (vadActive : Bool)
    (input : List ℚ) : List ℚ × Bool × List (List ℕ) :=
  match ws with
  | some .OPEN =>
    let isSpeech := speechFlag cfg.silenceThreshold input
    match (if inputSampleRate ≠ TARGET_SAMPLE_RATE then
             downsampleBuffer input inputSampleRate TARGET_SAMPLE_RATE
           else .ok input) with
    | .error _ => (audioQueue, isSpeech, [])
    | .ok processedData =>
      let F := TARGET_SAMPLE_RATE * cfg.frameDurationMs / 1000
      let r := framerDrain F (audioQueue ++ processedData)
      (r.2, isSpeech, r.1.map floatTo16BitPCM)
  | _ => (audioQueue, vadActive, [])

/-- The worker's `processAudio(inputData, inputSampleRate)`: returns early,
touching nothing and sending nothing, unless `socket` exists, is OPEN and
`config` is set; otherwise downsamples, queues and drains frames like the
inline callback. -/
def processAudio (socket : Option WsReadyState) (config : Option AppConfig)
    (audioBufferQueue : List ℚ) (inputData : List ℚ) (inputSampleRate : ℕ) :
    List ℚ × List (List ℕ) :=
  match socket, config with
  | some .OPEN, some cfg =>
    match (if inputSampleRate ≠ TARGET_SAMPLE_RATE then
             downsampleBuffer inputData inputSampleRate TARGET_SAMPLE_RATE
           else .ok inputData) with
    | .error _ => (audioBufferQueue, [])
    | .ok processedData =>
      let r := framerDrain (vadSamplesPerFrameWorker cfg.frameDurationMs)
        (audioBufferQueue ++ processedData)
      (r.2, r.1.map floatTo16BitPCM)
  | _, _ => (audioBufferQueue, [])

/-! ## String operations used by the message handler

The handler uses a handful of JavaScript string operations on ASCII data.
They are modelled on the character list underlying a Lean `String`, which
keeps every definition kernel-evaluable. -/

/-- JavaScript `String.prototype.toUpperCase` on ASCII data. -/
def toUpperCase (s : String) : String :=
  ⟨s.data.map Char.toUpper⟩

/-- JavaScript `String.prototype.toLowerCase` on ASCII data. -/
def toLowerCase (s : String) : String :=
  ⟨s.data.map Char.toLower⟩

/-- JavaScript `String.prototype.trim` on ASCII data: strip leading and
trailing whitespace. -/
def trimStr (s : String) : String :=
  ⟨((s.data.dropWhile Char.isWhitespace).reverse.dropWhile
      Char.isWhitespace).reverse⟩

/-- JavaScript `String.prototype.startsWith`. -/
def startsWithStr (s pre : String) : Bool :=
  pre.data.isPrefixOf s.data

/-- Drop the first `n` characters; together with `trimStr` this models
`str.replace(prefix, '').trim()` under a `startsWith(prefix)` guard, where
the first occurrence replaced is the leading one. -/
def dropStr (s : String) (n : ℕ) : String :=
  ⟨s.data.drop n⟩

/-- Whether `pat` occurs as a contiguous run inside the character list. -/
def hasSubList (pat : List Char) : List Char → Bool
  | [] => decide (pat = [])
  | c :: rest => pat.isPrefixOf (c :: rest) || hasSubList pat rest

/-- JavaScript `String.prototype.includes`. -/
def includesStr (s pat : String) : Bool :=
  hasSubList pat.data s.data

/-- JavaScript string coalescing `a || b || ''`: the empty string is falsy,
so a missing or empty first operand falls through to the second. -/
def jsOrStr (a b : Option String) : String :=
  if a.getD "" ≠ "" then a.getD "" else b.getD ""

/-! ## Protocol Interpreter (`handleWebSocketMessage` in `App.tsx`) -/

/-- Result of the inbound decode attempt that opens the handler. `json`
carries the fields the handler reads from a successfully parsed value
(`data.type`, `data.text`, `data.message`; a field that is absent or not a
string is `none`). `text` is the raw string handed to the catch-branch when
`JSON.parse` throws; for example the text "\x7bnot json" is not well-formed
JSON, so it arrives through `text`. The `session_id` and `timestamp` fields
only decorate the transcript entry's identifier and wall-clock metadata,
which the model does not track. -/
inductive InboundMsg where
  | json (type? text? message? : Option String)
  | text (raw : String)

/-- One observable effect of the handler, in program order: the React state
setters, the transcript append, and the calls into the capture session. -/
inductive Act where
  | setStatus (c : ConnectionStatus)
  | setProcessStatus (p : ProcessStatus)
  | addTranscript (text : String) (sender : Sender)
  | stopRecording
  | speak (text : String)
  | startRecording
deriving DecidableEq

/-- The `handleWebSocketMessage` callback of `App.tsx` (structured-protocol
version), as the list of effects it performs in order. An empty list means
the message produced no event and left every piece of state unchanged. -/
def handleWebSocketMessage : InboundMsg → List Act
  | .json type? text? message? =>
    let msgType := toUpperCase (type?.getD "")
    if msgType = "CONNECTED" ∨ msgType = "CONNECTION_ESTABLISHED" then
      [.setStatus .CONNECTED, .setProcessStatus .idle]
    else if msgType = "TRANSCRIPTION_STARTED" ∨ msgType = "SPEECH_START" ∨
        msgType = "VAD_START" ∨ msgType = "LISTENING" then
      [.setProcessStatus .transcribing]
    else if msgType = "TRANSCRIPTION_COMPLETED" ∨ msgType = "TRANSCRIPTION" ∨
        msgType = "USER_TRANSCRIPT" then
      let userText := trimStr (text?.getD "")
      (if userText ≠ "" then [.addTranscript userText .user] else []) ++
        [.setProcessStatus .idle]
    else if msgType = "PROCESSING_STARTED" ∨ msgType = "PROCESSING_START" ∨
        msgType = "THINKING" then
      [.setProcessStatus .processing]
    else if msgType = "PROCESSING_COMPLETED" ∨ msgType = "SYSTEM_RESPONSE" ∨
        msgType = "VOICE_FEEDBACK" ∨ msgType = "AI_RESPONSE" then
      let systemText := trimStr (jsOrStr text? message?)
      (if systemText ≠ "" then
        [.stopRecording, .speak systemText, .startRecording,
          .addTranscript systemText .system]
       else []) ++ [.setProcessStatus .idle]
    else []
  | .text raw =>
    let textData := trimStr raw
    if startsWithStr textData "VOICE FEEDBACK:" then
      let t := trimStr (dropStr textData 15)
      [.stopRecording, .speak t, .startRecording, .addTranscript t .system,
        .setProcessStatus .idle]
    else if startsWithStr textData "TRANSCRIPTION:" then
      let t := trimStr (dropStr textData 14)
      [.addTranscript t .user, .setProcessStatus .idle]
    else if includesStr textData "started" then
      (if includesStr (toLowerCase textData) "transcription" then
        [.setProcessStatus .transcribing] else []) ++
      (if includesStr (toLowerCase textData) "processing" then
        [.setProcessStatus .processing] else [])
    else []

/-! ## Capture session teardown -/

/-- The mutable session state touched by `stopRecording` and its two
cleanups: the React state hooks and the refs of `App.tsx`. Resource handles
(`processorRef`, `streamRef`, `audioContextRef`) are tracked as present or
absent; the tracks of a present stream are stopped exactly when the handle
is dropped. -/
structure AppState where
  status : ConnectionStatus
  processStatus : ProcessStatus
  transcripts : List (String × Sender)
  errorMessage : Option String
  processor : Bool
  stream : Bool
  audioContext : Bool
  audioQueue : List ℚ
  vadActive : Bool
  ws : Option WsReadyState
deriving DecidableEq

/-- `cleanupAudio` of `App.tsx`: detach and drop the processor, stop the
hardware tracks and drop the stream, close and drop the audio context, clear
the sample queue, reset the VAD flag, reset the activity state. -/
def cleanupAudio (s : AppState) : AppState :=
  let s1 := if s.processor then { s with processor := false } else s
  let s2 := if s1.stream then { s1 with stream := false } else s1
  let s3 := if s2.audioContext then { s2 with audioContext := false } else s2
  { s3 with audioQueue := [], vadActive := false, processStatus := .idle }

/-- `cleanupWS` of `App.tsx`: close and drop the socket, report
disconnected. -/
def cleanupWS (s : AppState) : AppState :=
  let s1 := if s.ws.isSome then { s with ws := none } else s
  { s1 with status := .DISCONNECTED }

/-- `stopRecording` of `App.tsx`: `cleanupAudio(); cleanupWS();`. -/
def stopRecording (s : AppState) : AppState :=
  cleanupWS (cleanupAudio s)

/-! ## Framer lemmas -/

theorem drainLoop_flatten (F : ℕ) :
    ∀ (n : ℕ) (q : List ℚ),
      (drainLoop F n q).1.flatten ++ (drainLoop F n q).2 = q := by
  intro n
  induction n with
  | zero => intro q; simp [drainLoop]
  | succ m ih =>
    intro q
    by_cases h : 0 < F ∧ F ≤ q.length
    · simp only [drainLoop, if_pos h, List.flatten_cons, List.append_assoc, ih]
      exact List.take_append_drop F q
    · simp [drainLoop, if_neg h]

theorem drainLoop_frame_len (F : ℕ) :
    ∀ (n : ℕ) (q : List ℚ), ∀ f ∈ (drainLoop F n q).1, f.length = F := by
  intro n
  induction n with
  | zero => intro q f hf; simp [drainLoop] at hf
  | succ m ih =>
    intro q f hf
    by_cases h : 0 < F ∧ F ≤ q.length
    · simp only [drainLoop, if_pos h, List.mem_cons] at hf
      rcases hf with rfl | hf
      · simpa using Nat.min_eq_left h.2
      · exact ih (q.drop F) f hf
    · simp [drainLoop, if_neg h] at hf

theorem drainLoop_rest_lt (F : ℕ) (hF : 0 < F) :
    ∀ (n : ℕ) (q : List ℚ), q.length ≤ n → (drainLoop F n q).2.length < F := by
  intro n
  induction n with
  | zero =>
    intro q hq
    have : q = [] := List.eq_nil_of_length_eq_zero (Nat.le_zero.mp hq)
    subst this; simpa [drainLoop] using hF
  | succ m ih =>
    intro q hq
    by_cases h : 0 < F ∧ F ≤ q.length
    · simp only [drainLoop, if_pos h]
      exact ih (q.drop F) (by simp; omega)
    · have hlt : q.length < F := by
        rcases Nat.lt_or_ge q.length F with h' | h'
        · exact h'
        · exact absurd ⟨hF, h'⟩ h
      simpa [drainLoop, if_neg h] using hlt

theorem framerRun_go (F : ℕ) (hF : 0 < F) :
    ∀ (chunks : List (List ℚ)) (fs0 : List (List ℚ)) (q0 : List ℚ),
      (∀ f ∈ fs0, f.length = F) → q0.length < F →
      let r := chunks.foldl (fun acc c =>
        let r := framerDrain F (acc.2 ++ c)
        (acc.1 ++ r.1, r.2)) (fs0, q0)
      r.1.flatten ++ r.2 = fs0.flatten ++ q0 ++ chunks.flatten ∧
        (∀ f ∈ r.1, f.length = F) ∧ r.2.length < F := by
  intro chunks
  induction chunks with
  | nil =>
    intro fs0 q0 h0 hq0
    exact ⟨by simp, h0, hq0⟩
  | cons c rest ih =>
    intro fs0 q0 h0 hq0
    have hd := drainLoop_flatten F (q0 ++ c).length (q0 ++ c)
    have hlen := drainLoop_frame_len F (q0 ++ c).length (q0 ++ c)
    have hrest := drainLoop_rest_lt F hF (q0 ++ c).length (q0 ++ c) le_rfl
    have hstep := ih (fs0 ++ (framerDrain F (q0 ++ c)).1)
      (framerDrain F (q0 ++ c)).2
      (by
        intro f hf
        rcases List.mem_append.mp hf with hf | hf
        · exact h0 f hf
        · exact hlen f hf)
      hrest
    simp only [List.foldl_cons]
    refine ⟨?_, hstep.2.1, hstep.2.2⟩
    calc (List.foldl _ (fs0 ++ (framerDrain F (q0 ++ c)).1,
            (framerDrain F (q0 ++ c)).2) rest).1.flatten ++ _
      = (fs0 ++ (framerDrain F (q0 ++ c)).1).flatten ++
          (framerDrain F (q0 ++ c)).2 ++ rest.flatten := hstep.1
    _ = fs0.flatten ++ ((framerDrain F (q0 ++ c)).1.flatten ++
          (framerDrain F (q0 ++ c)).2) ++ rest.flatten := by
        simp [List.flatten_append, List.append_assoc]
    _ = fs0.flatten ++ q0 ++ (c :: rest).flatten := by
        rw [show (framerDrain F (q0 ++ c)).1.flatten ++
            (framerDrain F (q0 ++ c)).2 = q0 ++ c from hd]
        simp [List.append_assoc]

theorem flatten_length_of_uniform (F : ℕ) (l : List (List ℚ))
    (h : ∀ f ∈ l, f.length = F) : l.flatten.length = F * l.length := by
  induction l with
  | nil => simp
  | cons a t ih =>
    simp only [List.flatten_cons, List.length_append, List.length_cons]
    rw [h a (by simp), ih (fun f hf => h f (List.mem_cons_of_mem a hf))]
    ring

/-- C1: for every sequence of pushes into the framer, regardless of chunk
sizes, every frame taken has exactly `F` samples (no partial frame), and the
concatenation of all frames taken, in FIFO order, equals the concatenation
of all pushed samples truncated to the largest multiple of `F`. -/
theorem framer_fifo_exact (F : ℕ) (chunks : List (List ℚ)) (hF : 0 < F) :
    (∀ f ∈ (framerRun F chunks).1, f.length = F) ∧
    (framerRun F chunks).1.flatten =
      chunks.flatten.take (F * (chunks.flatten.length / F)) := by
  have h := framerRun_go F hF chunks [] [] (by simp) hF
  simp only [List.flatten_nil, List.nil_append] at h
  have e : (chunks.foldl (fun acc c =>
      let r := framerDrain F (acc.2 ++ c)
      (acc.1 ++ r.1, r.2)) ([], [])) = framerRun F chunks := rfl
  rw [e] at h
  obtain ⟨hjoin, hframes, hrest⟩ := h
  refine ⟨hframes, ?_⟩
  have hflen : (framerRun F chunks).1.flatten.length =
      F * (framerRun F chunks).1.length :=
    flatten_length_of_uniform F _ hframes
  have htot : chunks.flatten.length =
      F * (framerRun F chunks).1.length + (framerRun F chunks).2.length := by
    rw [← hjoin]; simp [hflen]
  have hdiv : chunks.flatten.length / F = (framerRun F chunks).1.length := by
    rw [htot, Nat.mul_add_div hF, Nat.div_eq_of_lt hrest, Nat.add_zero]
  rw [hdiv, ← hflen, ← hjoin, List.take_left]

theorem framer_fifo_exact_witness :
    0 < 2 ∧
    ((∀ f ∈ (framerRun 2 [[1, 2, 3], [4, 5]]).1, f.length = 2) ∧
      (framerRun 2 [[1, 2, 3], [4, 5]]).1.flatten =
        ([[1, 2, 3], [4, 5]] : List (List ℚ)).flatten.take
          (2 * (([[1, 2, 3], [4, 5]] : List (List ℚ)).flatten.length / 2))) :=
  ⟨by decide, framer_fifo_exact 2 [[1, 2, 3], [4, 5]] (by decide)⟩

/-! ## PCM encoder lemmas -/

theorem floatTo16BitPCM_length (input : List ℚ) :
    (floatTo16BitPCM input).length = 2 * input.length := by
  induction input with
  | nil => simp [floatTo16BitPCM]
  | cons x xs ih =>
    simp only [floatTo16BitPCM, pcm16Bytes, int16LEBytes, List.length_append,
      List.length_cons, List.length_nil, List.length_cons, ih]
    omega

theorem floatTo16BitPCM_getD (input : List ℚ) :
    ∀ i, i < input.length →
      (floatTo16BitPCM input).getD (2 * i) 0 =
          (pcm16Bytes (input.getD i 0)).getD 0 0 ∧
        (floatTo16BitPCM input).getD (2 * i + 1) 0 =
          (pcm16Bytes (input.getD i 0)).getD 1 0 := by
  induction input with
  | nil => intro i hi; simp at hi
  | cons x xs ih =>
    intro i hi
    cases i with
    | zero =>
      constructor <;>
        simp [floatTo16BitPCM, pcm16Bytes, int16LEBytes]
    | succ j =>
      have hj : j < xs.length := by
        simpa using Nat.lt_of_succ_lt_succ (by simpa using hi)
      have e0 : 2 * (j + 1) = 2 * j + 1 + 1 := by ring
      rw [e0]
      obtain ⟨hrec1, hrec2⟩ := ih j hj
      constructor
      · simpa [floatTo16BitPCM, pcm16Bytes, int16LEBytes, List.getD_cons_succ]
          using hrec1
      · simpa [floatTo16BitPCM, pcm16Bytes, int16LEBytes, List.getD_cons_succ]
          using hrec2

theorem decode_int16LEBytes (v : ℤ) (h1 : -32768 ≤ v) (h2 : v ≤ 32767) :
    decodePCM16 ((int16LEBytes v).getD 0 0) ((int16LEBytes v).getD 1 0) = v := by
  simp only [int16LEBytes, decodePCM16, List.getD_cons_zero, List.getD_cons_succ]
  split_ifs <;> push_cast <;> omega

theorem pcm16Scaled_of_bounded (x : ℚ) (hlo : -1 ≤ x) (hhi : x ≤ 1) :
    pcm16Scaled x = if x < 0 then x * 32768 else x * 32767 := by
  simp [pcm16Scaled, min_eq_right hhi, max_eq_right hlo]

theorem truncToInt_bounds (x : ℚ) (hlo : -1 ≤ x) (hhi : x ≤ 1) :
    -32768 ≤ truncToInt (pcm16Scaled x) ∧ truncToInt (pcm16Scaled x) ≤ 32767 := by
  rw [pcm16Scaled_of_bounded x hlo hhi]
  by_cases hx : x < 0
  · have hneg : x * 32768 < 0 := mul_neg_of_neg_of_pos hx (by norm_num)
    simp only [if_pos hx, truncToInt, if_pos hneg]
    constructor
    · have hle : ((-32768 : ℤ) : ℚ) ≤ x * 32768 := by push_cast; nlinarith
      calc (-32768 : ℤ) = ⌈((-32768 : ℤ) : ℚ)⌉ := (Int.ceil_intCast _).symm
      _ ≤ ⌈x * 32768⌉ := Int.ceil_mono hle
    · have h2 : ⌈x * 32768⌉ ≤ ⌈(0 : ℚ)⌉ := Int.ceil_mono (le_of_lt hneg)
      simp only [Int.ceil_zero] at h2
      omega
  · have hpos : ¬ x * 32767 < 0 :=
      not_lt.mpr (mul_nonneg (not_lt.mp hx) (by norm_num))
    simp only [if_neg hx, truncToInt, if_neg hpos]
    constructor
    · have := Int.floor_nonneg.mpr (not_lt.mp hpos)
      omega
    · have hle : x * 32767 ≤ ((32767 : ℤ) : ℚ) := by
        push_cast; nlinarith [not_lt.mp hx]
      calc ⌊x * 32767⌋ ≤ ⌊((32767 : ℤ) : ℚ)⌋ := Int.floor_mono hle
      _ = 32767 := Int.floor_intCast _

theorem truncToInt_close_to_round (y : ℚ) :
    |truncToInt y - round y| ≤ 1 := by
  have h1 : ⌊y⌋ ≤ round y := by
    rw [round_eq]
    exact Int.floor_mono (by linarith)
  have h2 : round y ≤ ⌊y⌋ + 1 := by
    rw [round_eq]
    have := Int.floor_mono (show y + 1 / 2 ≤ y + 1 by linarith)
    rwa [Int.floor_add_one] at this
  have h3 : ⌊y⌋ ≤ ⌈y⌉ := Int.floor_le_ceil y
  have h4 : ⌈y⌉ ≤ ⌊y⌋ + 1 := Int.ceil_le_floor_add_one y
  rw [abs_le]
  unfold truncToInt
  split_ifs <;> omega

/-- C2: the PCM encoder clamps each sample to [-1,1], scales negatives by
32768 and non-negatives by 32767, truncates to a 16-bit signed integer and
writes it little-endian; the output is exactly `2 * frameLength` bytes, and
for a sample `s ∈ [-1,1]` the standard PCM16 little-endian decode of its two
emitted bytes is within 1 LSB of `round(s*32767)` for `s ≥ 0` and of
`round(s*32768)` for `s < 0`. -/
theorem pcm_encode_decode_bound (input : List ℚ) (i : ℕ) (hi : i < input.length)
    (hlo : -1 ≤ input.getD i 0) (hhi : input.getD i 0 ≤ 1) :
    (floatTo16BitPCM input).length = 2 * input.length ∧
    decodePCM16 ((floatTo16BitPCM input).getD (2 * i) 0)
        ((floatTo16BitPCM input).getD (2 * i + 1) 0) =
      truncToInt (pcm16Scaled (input.getD i 0)) ∧
    |decodePCM16 ((floatTo16BitPCM input).getD (2 * i) 0)
        ((floatTo16BitPCM input).getD (2 * i + 1) 0) -
      round (input.getD i 0 *
        (if input.getD i 0 < 0 then (32768 : ℚ) else 32767))| ≤ 1 := by
  obtain ⟨e0, e1⟩ := floatTo16BitPCM_getD input i hi
  obtain ⟨hb1, hb2⟩ := truncToInt_bounds (input.getD i 0) hlo hhi
  have hdec : decodePCM16 ((floatTo16BitPCM input).getD (2 * i) 0)
      ((floatTo16BitPCM input).getD (2 * i + 1) 0) =
      truncToInt (pcm16Scaled (input.getD i 0)) := by
    rw [e0, e1]
    exact decode_int16LEBytes _ hb1 hb2
  refine ⟨floatTo16BitPCM_length input, hdec, ?_⟩
  rw [hdec]
  have hs : pcm16Scaled (input.getD i 0) =
      input.getD i 0 * (if input.getD i 0 < 0 then (32768 : ℚ) else 32767) := by
    rw [pcm16Scaled_of_bounded _ hlo hhi]
    split_ifs <;> rfl
  rw [hs]
  exact truncToInt_close_to_round _

theorem pcm_encode_decode_bound_witness :
    0 < [(-3 : ℚ)/4, 1/2].length ∧
    (-1 : ℚ) ≤ [(-3 : ℚ)/4, 1/2].getD 0 0 ∧
    [(-3 : ℚ)/4, 1/2].getD 0 0 ≤ 1 ∧
    ((floatTo16BitPCM [(-3 : ℚ)/4, 1/2]).length =
        2 * [(-3 : ℚ)/4, 1/2].length ∧
      decodePCM16 ((floatTo16BitPCM [(-3 : ℚ)/4, 1/2]).getD (2 * 0) 0)
          ((floatTo16BitPCM [(-3 : ℚ)/4, 1/2]).getD (2 * 0 + 1) 0) =
        truncToInt (pcm16Scaled ([(-3 : ℚ)/4, 1/2].getD 0 0)) ∧
      |decodePCM16 ((floatTo16BitPCM [(-3 : ℚ)/4, 1/2]).getD (2 * 0) 0)
          ((floatTo16BitPCM [(-3 : ℚ)/4, 1/2]).getD (2 * 0 + 1) 0) -
        round ([(-3 : ℚ)/4, 1/2].getD 0 0 *
          (if [(-3 : ℚ)/4, 1/2].getD 0 0 < 0 then (32768 : ℚ)
           else 32767))| ≤ 1) :=
  ⟨by decide, by simp only [List.getD_cons_zero]; norm_num,
    by simp only [List.getD_cons_zero]; norm_num,
    pcm_encode_decode_bound [(-3 : ℚ)/4, 1/2] 0 (by decide)
      (by simp only [List.getD_cons_zero]; norm_num)
      (by simp only [List.getD_cons_zero]; norm_num)⟩

/-! ## Resampler lemmas -/

theorem range'_map_sum (f : ℕ → ℚ) : ∀ (n s : ℕ),
    ((List.range' s n).map f).sum = ∑ k ∈ Finset.range n, f (s + k) := by
  intro n
  induction n with
  | zero => intro s; simp
  | succ m ih =>
    intro s
    rw [List.range'_succ, List.map_cons, List.sum_cons, ih (s + 1),
      Finset.sum_range_succ']
    simp only [Nat.add_zero]
    rw [add_comm]
    congr 1
    apply Finset.sum_congr rfl
    intro k _
    congr 1
    omega

theorem windowAvg_eq_spec (buffer : List ℚ) (s e : ℕ) :
    windowAvg buffer s e = windowMeanSpec buffer s e := by
  have hset : (Finset.range buffer.length).filter (fun j => s ≤ j ∧ j < e) =
      Finset.Ico s (min e buffer.length) := by
    ext j
    simp only [Finset.mem_filter, Finset.mem_range, Finset.mem_Ico, lt_min_iff]
    omega
  unfold windowAvg windowMeanSpec windowSum
  simp only [hset, Nat.card_Ico, Finset.sum_Ico_eq_sum_range,
    range'_map_sum (fun j => buffer.getD j 0)]
  by_cases h : min e buffer.length - s = 0
  · simp [h]
  · simp [h, Nat.pos_of_ne_zero h]

/-- C3: for `inputRate > outputRate` (positive rates), `downsampleBuffer`
returns an output of length `round(inputLength / ratio)` with
`ratio = inputRate / outputRate`, and output index `i` is the average of
exactly those input samples whose index falls in
`[floor(i*ratio), floor((i+1)*ratio))`, an empty window yielding 0. -/
theorem downsample_block_average (buffer : List ℚ)
    (inputSampleRate outputSampleRate : ℕ)
    (hlt : outputSampleRate < inputSampleRate) (hpos : 0 < outputSampleRate) :
    ∃ out, downsampleBuffer buffer inputSampleRate outputSampleRate = .ok out ∧
      out.length = (round ((buffer.length : ℚ) /
        ((inputSampleRate : ℚ) / (outputSampleRate : ℚ)))).toNat ∧
      ∀ i, i < out.length →
        out.getD i 0 = windowMeanSpec buffer
          (⌊(i : ℚ) * ((inputSampleRate : ℚ) / (outputSampleRate : ℚ))⌋.toNat)
          (⌊((i : ℚ) + 1) *
            ((inputSampleRate : ℚ) / (outputSampleRate : ℚ))⌋.toNat) := by
  have hne : ¬ outputSampleRate = inputSampleRate := by omega
  have hnlt : ¬ inputSampleRate < outputSampleRate := by omega
  refine ⟨(List.range ((round ((buffer.length : ℚ) /
      ((inputSampleRate : ℚ) / (outputSampleRate : ℚ)))).toNat)).map
      (fun i : ℕ => windowAvg buffer
        (⌊(i : ℚ) * ((inputSampleRate : ℚ) / (outputSampleRate : ℚ))⌋.toNat)
        (⌊((i : ℚ) + 1) *
          ((inputSampleRate : ℚ) / (outputSampleRate : ℚ))⌋.toNat)),
    ?_, ?_, ?_⟩
  · unfold downsampleBuffer
    rw [if_neg hne, if_neg hnlt]
  · simp
  · intro i hi
    simp only [List.length_map, List.length_range] at hi
    rw [List.getD_eq_getElem _ _ (by simpa using hi)]
    simp only [List.getElem_map, List.getElem_range]
    rw [windowAvg_eq_spec]

theorem downsample_block_average_witness :
    1 < 3 ∧ 0 < 1 ∧
    (∃ out, downsampleBuffer [1, 2, 3, 4] 3 1 = .ok out ∧
      out.length = (round ((([1, 2, 3, 4] : List ℚ).length : ℚ) /
        (((3 : ℕ) : ℚ) / ((1 : ℕ) : ℚ)))).toNat ∧
      ∀ i, i < out.length →
        out.getD i 0 = windowMeanSpec [1, 2, 3, 4]
          (⌊(i : ℚ) * (((3 : ℕ) : ℚ) / ((1 : ℕ) : ℚ))⌋.toNat)
          (⌊((i : ℚ) + 1) * (((3 : ℕ) : ℚ) / ((1 : ℕ) : ℚ))⌋.toNat)) :=
  ⟨by decide, by decide,
    downsample_block_average [1, 2, 3, 4] 3 1 (by decide) (by decide)⟩

/-! ## Frame sample count -/

theorem vadSamplesPerFrame_exact (d : ℕ) :
    TARGET_SAMPLE_RATE * d / 1000 = 16 * d := by
  unfold TARGET_SAMPLE_RATE
  omega

/-- C4: in both execution contexts that slice frames (the worker, which
floors, and the inline processor, whose division is exact for a natural
`frameDurationMs` because the target rate 16000 is a multiple of 1000), the
frame sample count equals the truncated value
`floor(frameDurationMs * targetSampleRate / 1000) = 16 * frameDurationMs`,
a positive integer. -/
theorem frame_count_floor_positive (d : ℕ) (hd : 0 < d) :
    vadSamplesPerFrameWorker d = 16 * d ∧
    vadSamplesPerFrameApp d = ((vadSamplesPerFrameWorker d : ℕ) : ℚ) ∧
    0 < vadSamplesPerFrameWorker d := by
  have h : vadSamplesPerFrameWorker d = 16 * d := vadSamplesPerFrame_exact d
  refine ⟨h, ?_, by rw [h]; omega⟩
  rw [h]
  unfold vadSamplesPerFrameApp TARGET_SAMPLE_RATE
  push_cast
  ring

theorem frame_count_floor_positive_witness :
    0 < 32 ∧
    (vadSamplesPerFrameWorker 32 = 16 * 32 ∧
      vadSamplesPerFrameApp 32 = ((vadSamplesPerFrameWorker 32 : ℕ) : ℚ) ∧
      0 < vadSamplesPerFrameWorker 32) :=
  ⟨by decide, frame_count_floor_positive 32 (by decide)⟩

/-! ## Protocol Interpreter theorems -/

/-- C5: a text message that is not well-formed JSON (so it reaches the
legacy fallback) and carries no recognized legacy prefix or keyword
produces no effect at all: no transcript entry, no connection-state change,
no activity-state change. -/
theorem malformed_text_no_event (raw : String)
    (h1 : startsWithStr (trimStr raw) "VOICE FEEDBACK:" = false)
    (h2 : startsWithStr (trimStr raw) "TRANSCRIPTION:" = false)
    (h3 : includesStr (trimStr raw) "started" = false) :
    handleWebSocketMessage (.text raw) = [] := by
  simp [handleWebSocketMessage, h1, h2, h3]

theorem malformed_text_no_event_witness :
    startsWithStr (trimStr "\x7bnot json") "VOICE FEEDBACK:" = false ∧
    startsWithStr (trimStr "\x7bnot json") "TRANSCRIPTION:" = false ∧
    includesStr (trimStr "\x7bnot json") "started" = false ∧
    handleWebSocketMessage (.text "\x7bnot json") = [] :=
  ⟨by decide, by decide, by decide,
    malformed_text_no_event "\x7bnot json" (by decide) (by decide) (by decide)⟩

/-- C6: a structured message whose type normalizes case-insensitively to
TRANSCRIPTION_COMPLETED with text "hello" produces exactly one user
transcript event followed by the activity state reset to idle. -/
theorem transcription_completed_event (ty : String)
    (hty : toUpperCase ty = "TRANSCRIPTION_COMPLETED") :
    handleWebSocketMessage (.json (some ty) (some "hello") none) =
      [.addTranscript "hello" .user, .setProcessStatus .idle] := by
  simp only [handleWebSocketMessage, Option.getD_some, hty]
  decide

theorem transcription_completed_event_witness :
    toUpperCase "Transcription_Completed" = "TRANSCRIPTION_COMPLETED" ∧
    handleWebSocketMessage
        (.json (some "Transcription_Completed") (some "hello") none) =
      [.addTranscript "hello" .user, .setProcessStatus .idle] :=
  ⟨by decide, transcription_completed_event "Transcription_Completed" (by decide)⟩

/-- C7: when the socket handle is absent or its ready state is not OPEN, an
audio callback sends no frame and enqueues nothing — the samples are
silently dropped, the queue and VAD flag are untouched and no error is
raised; the worker path behaves the same, also when its configuration is
missing. -/
theorem send_noop_when_not_connected :
    (∀ (cfg : AppConfig) (inputSampleRate : ℕ) (ws : Option WsReadyState)
        (audioQueue : List ℚ) (vadActive : Bool) (input : List ℚ),
      ws ≠ some WsReadyState.OPEN →
      onaudioprocess cfg inputSampleRate ws audioQueue vadActive input =
        (audioQueue, vadActive, [])) ∧
    (∀ (socket : Option WsReadyState) (config : Option AppConfig)
        (audioBufferQueue : List ℚ) (inputData : List ℚ)
        (inputSampleRate : ℕ),
      socket ≠ some WsReadyState.OPEN ∨ config = none →
      processAudio socket config audioBufferQueue inputData inputSampleRate =
        (audioBufferQueue, [])) := by
  constructor
  · intro cfg rate ws q vad input hws
    cases ws with
    | none => rfl
    | some w =>
      cases w with
      | OPEN => exact absurd rfl hws
      | CONNECTING => rfl
      | CLOSING => rfl
      | CLOSED => rfl
  · intro socket config q input rate h
    cases socket with
    | none => rfl
    | some w =>
      cases w with
      | OPEN =>
        cases config with
        | none => rfl
        | some cfg =>
          rcases h with h | h
          · exact absurd rfl h
          · exact absurd h (by simp)
      | CONNECTING => cases config <;> rfl
      | CLOSING => cases config <;> rfl
      | CLOSED => cases config <;> rfl

theorem send_noop_when_not_connected_witness :
    some WsReadyState.CLOSED ≠ some WsReadyState.OPEN ∧
    onaudioprocess ⟨"ws://localhost:8765", 16000, 32, 500, 0⟩ 48000
        (some WsReadyState.CLOSED) [1] false [1] = ([1], false, []) ∧
    processAudio none (some ⟨"ws://localhost:8765", 16000, 32, 500, 0⟩)
        [1] [1] 48000 = ([1], []) :=
  ⟨by decide,
    send_noop_when_not_connected.1 ⟨"ws://localhost:8765", 16000, 32, 500, 0⟩
      48000 (some WsReadyState.CLOSED) [1] false [1] (by decide),
    send_noop_when_not_connected.2 none
      (some ⟨"ws://localhost:8765", 16000, 32, 500, 0⟩) [1] [1] 48000
      (Or.inl (by decide))⟩

/-- C8: every system-response event with non-empty text — the structured
types PROCESSING_COMPLETED / SYSTEM_RESPONSE / VOICE_FEEDBACK / AI_RESPONSE
and the legacy "VOICE FEEDBACK:" form — stops the capture session, speaks,
restarts capture, in that order, and only then records the system
transcript, finishing with the activity state reset to idle. -/
theorem system_response_stops_then_restarts :
    (∀ (ty : String) (text? message? : Option String),
      (toUpperCase ty = "PROCESSING_COMPLETED" ∨
        toUpperCase ty = "SYSTEM_RESPONSE" ∨
        toUpperCase ty = "VOICE_FEEDBACK" ∨
        toUpperCase ty = "AI_RESPONSE") →
      trimStr (jsOrStr text? message?) ≠ "" →
      handleWebSocketMessage (.json (some ty) text? message?) =
        [.stopRecording, .speak (trimStr (jsOrStr text? message?)),
          .startRecording,
          .addTranscript (trimStr (jsOrStr text? message?)) .system,
          .setProcessStatus .idle]) ∧
    (∀ raw : String,
      startsWithStr (trimStr raw) "VOICE FEEDBACK:" = true →
      trimStr (dropStr (trimStr raw) 15) ≠ "" →
      handleWebSocketMessage (.text raw) =
        [.stopRecording, .speak (trimStr (dropStr (trimStr raw) 15)),
          .startRecording,
          .addTranscript (trimStr (dropStr (trimStr raw) 15)) .system,
          .setProcessStatus .idle]) := by
  constructor
  · intro ty text? message? hty hne
    rcases hty with h | h | h | h <;>
      simp [handleWebSocketMessage, h, hne]
  · intro raw h1 h2
    simp [handleWebSocketMessage, h1]

theorem system_response_stops_then_restarts_witness :
    toUpperCase "system_response" = "SYSTEM_RESPONSE" ∧
    trimStr (jsOrStr (some " ok ") none) ≠ "" ∧
    handleWebSocketMessage (.json (some "system_response") (some " ok ") none) =
      [.stopRecording, .speak (trimStr (jsOrStr (some " ok ") none)),
        .startRecording,
        .addTranscript (trimStr (jsOrStr (some " ok ") none)) .system,
        .setProcessStatus .idle] ∧
    startsWithStr (trimStr "VOICE FEEDBACK: all done") "VOICE FEEDBACK:" =
      true ∧
    handleWebSocketMessage (.text "VOICE FEEDBACK: all done") =
      [.stopRecording,
        .speak (trimStr (dropStr (trimStr "VOICE FEEDBACK: all done") 15)),
        .startRecording,
        .addTranscript
          (trimStr (dropStr (trimStr "VOICE FEEDBACK: all done") 15)) .system,
        .setProcessStatus .idle] :=
  ⟨by decide, by decide,
    system_response_stops_then_restarts.1 "system_response" (some " ok ") none
      (Or.inr (Or.inl (by decide))) (by decide),
    by decide,
    system_response_stops_then_restarts.2 "VOICE FEEDBACK: all done"
      (by decide) (by decide)⟩

/-- C9: stopping a session is idempotent and total: stopping twice in a row
is a function application that raises nothing and yields the same end state
as stopping once — processor detached, hardware stream stopped, audio
context released, sample queue cleared, speech flag false, activity idle,
socket closed and connection reported disconnected. -/
theorem stopRecording_idempotent (s : AppState) :
    stopRecording (stopRecording s) = stopRecording s ∧
    (stopRecording s).processor = false ∧
    (stopRecording s).stream = false ∧
    (stopRecording s).audioContext = false ∧
    (stopRecording s).audioQueue = [] ∧
    (stopRecording s).vadActive = false ∧
    (stopRecording s).processStatus = .idle ∧
    (stopRecording s).ws = none ∧
    (stopRecording s).status = .DISCONNECTED := by
  obtain ⟨st, ps, tr, em, proc, strm, ctx, q, vad, ws⟩ := s
  unfold stopRecording cleanupWS cleanupAudio
  cases proc <;> cases strm <;> cases ctx <;> cases ws <;> simp

/-- C10: a structured message whose type maps to a user transcript or a
system response but whose trimmed string payload is empty (missing, empty,
or whitespace-only) emits no transcript entry and, for system responses,
performs no stop, speak or restart — yet still resets the activity state to
idle. -/
theorem empty_payload_no_transcript :
    (∀ (ty : String) (text? message? : Option String),
      (toUpperCase ty = "TRANSCRIPTION_COMPLETED" ∨
        toUpperCase ty = "TRANSCRIPTION" ∨
        toUpperCase ty = "USER_TRANSCRIPT") →
      trimStr (text?.getD "") = "" →
      handleWebSocketMessage (.json (some ty) text? message?) =
        [.setProcessStatus .idle]) ∧
    (∀ (ty : String) (text? message? : Option String),
      (toUpperCase ty = "PROCESSING_COMPLETED" ∨
        toUpperCase ty = "SYSTEM_RESPONSE" ∨
        toUpperCase ty = "VOICE_FEEDBACK" ∨
        toUpperCase ty = "AI_RESPONSE") →
      trimStr (jsOrStr text? message?) = "" →
      handleWebSocketMessage (.json (some ty) text? message?) =
        [.setProcessStatus .idle]) := by
  constructor
  · intro ty text? message? hty he
    rcases hty with h | h | h <;> simp [handleWebSocketMessage, h, he]
  · intro ty text? message? hty he
    rcases hty with h | h | h | h <;> simp [handleWebSocketMessage, h, he]

theorem empty_payload_no_transcript_witness :
    toUpperCase "TRANSCRIPTION_COMPLETED" = "TRANSCRIPTION_COMPLETED" ∧
    trimStr ((some "   ").getD "") = "" ∧
    handleWebSocketMessage
        (.json (some "TRANSCRIPTION_COMPLETED") (some "   ") none) =
      [.setProcessStatus .idle] ∧
    toUpperCase "SYSTEM_RESPONSE" = "SYSTEM_RESPONSE" ∧
    trimStr (jsOrStr (some "") (some "  ")) = "" ∧
    handleWebSocketMessage
        (.json (some "SYSTEM_RESPONSE") (some "") (some "  ")) =
      [.setProcessStatus .idle] :=
  ⟨by decide, by decide,
    empty_payload_no_transcript.1 "TRANSCRIPTION_COMPLETED" (some "   ") none
      (Or.inl (by decide)) (by decide),
    by decide, by decide,
    empty_payload_no_transcript.2 "SYSTEM_RESPONSE" (some "") (some "  ")
      (Or.inr (Or.inl (by decide))) (by decide)⟩

end EchoChat
